import Mathlib

/-!
Verification development for the PyComm3 polling worker
(`src/connectivity/src/workers/pycomm3_worker.py`).

The Python program is shallowly embedded: Python scalar values become the
inductive type `PyVal`, Python floats become `PyFloat` (a rational for the
finite case plus `nan`, `inf`, `ninf`; finite float arithmetic is idealized
to exact rational arithmetic), Python dicts become insertion-ordered
association lists, and wall-clock milliseconds become rationals.  Each
definition mirrors one function or code region of the worker; theorems then
settle the specification claims against these definitions.
-/

/-- Python float values: a finite float (idealized as an exact rational),
not-a-number, and the two infinities.  Mirrors the value space that
`math.isinf` / `math.isnan` discriminate in `sanitize_value`. -/
inductive PyFloat : Type where
  | finite (q : ℚ)
  | nan
  | inf
  | ninf
  deriving DecidableEq

/-- Python float subtraction (`new_value - old_value`), extended to the
non-finite values with IEEE semantics; finite arithmetic is exact. -/
def PyFloat.sub : PyFloat → PyFloat → PyFloat
  | nan, _ => nan
  | _, nan => nan
  | finite a, finite b => finite (a - b)
  | finite _, inf => ninf
  | finite _, ninf => inf
  | inf, finite _ => inf
  | ninf, finite _ => ninf
  | inf, ninf => inf
  | ninf, inf => ninf
  | inf, inf => nan
  | ninf, ninf => nan

/-- Python `abs` on floats. -/
def PyFloat.abs : PyFloat → PyFloat
  | finite q => finite |q|
  | nan => nan
  | inf => inf
  | ninf => inf

/-- Python float division, used for the percent-deadband base.  Division by
zero is unreachable at the one call site (the base is `abs(old)` for a
nonzero `old`, or `1`); it is mapped to `nan` to keep the function total. -/
def PyFloat.div : PyFloat → PyFloat → PyFloat
  | nan, _ => nan
  | _, nan => nan
  | finite a, finite b => if b = 0 then nan else finite (a / b)
  | finite _, inf => finite 0
  | finite _, ninf => finite 0
  | inf, finite b => if b < 0 then ninf else inf
  | ninf, finite b => if b < 0 then inf else ninf
  | inf, inf => nan
  | inf, ninf => nan
  | ninf, inf => nan
  | ninf, ninf => nan

/-- Multiplication by the literal `100` in `percent_change = abs(...) * 100`. -/
def PyFloat.mul100 : PyFloat → PyFloat
  | finite q => finite (q * 100)
  | nan => nan
  | inf => inf
  | ninf => ninf

/-- Python `<` on floats: `nan` compares false against everything. -/
def PyFloat.lt : PyFloat → PyFloat → Bool
  | nan, _ => false
  | _, nan => false
  | finite a, finite b => a < b
  | finite _, inf => true
  | finite _, ninf => false
  | inf, finite _ => false
  | ninf, finite _ => true
  | inf, inf => false
  | inf, ninf => false
  | ninf, inf => true
  | ninf, ninf => false

/-- Python `==` on floats: `nan` is not equal to anything, itself included. -/
def PyFloat.eqb : PyFloat → PyFloat → Bool
  | nan, _ => false
  | _, nan => false
  | finite a, finite b => a = b
  | inf, inf => true
  | ninf, ninf => true
  | _, _ => false

/-- Python scalar values as they flow through the worker: `None`, `bool`,
`int`, `float`, `str`.  Note that Python `bool` is a subclass of `int`, so
`isinstance(value, (int, float))` is true for booleans; `toExt` below
reflects that. -/
inductive PyVal : Type where
  | none
  | bool (b : Bool)
  | int (n : ℤ)
  | float (f : PyFloat)
  | str (s : String)
  deriving DecidableEq

/-- Numeric view used by `isinstance(value, (int, float))` and by numeric
comparison: booleans are numbers (`False = 0`, `True = 1`), ints embed
exactly, floats are taken as-is; `None` and strings are not numeric. -/
def toExt : PyVal → Option PyFloat
  | PyVal.bool b => some (PyFloat.finite (if b then 1 else 0))
  | PyVal.int n => some (PyFloat.finite (n : ℚ))
  | PyVal.float f => some f
  | _ => Option.none

/-- Python `==` on the scalar values above: numeric values compare by
numeric value (so `True == 1` and `1 == 1.0`), `None` equals only `None`,
strings compare by contents, and cross-kind comparisons are false. -/
def pyEq (a b : PyVal) : Bool :=
  match toExt a, toExt b with
  | some x, some y => PyFloat.eqb x y
  | _, _ =>
    match a, b with
    | PyVal.none, PyVal.none => true
    | PyVal.str s, PyVal.str t => s = t
    | _, _ => false

/-- Embedding of `sanitize_value` (worker lines 29-34): a float that is
infinite or NaN becomes `None`; every other value is returned unchanged. -/
def sanitize_value : PyVal → PyVal
  | PyVal.float PyFloat.nan => PyVal.none
  | PyVal.float PyFloat.inf => PyVal.none
  | PyVal.float PyFloat.ninf => PyVal.none
  | v => v

/-- Per-tag change-detection configuration as stored in `self.tag_configs`
by `subscribe_polling` (all four keys are always present). -/
structure TagConfig : Type where
  on_change_enabled : Bool
  on_change_deadband : ℚ
  on_change_deadband_type : String
  on_change_heartbeat_ms : ℚ
  deriving DecidableEq

/-- Per-tag last-value record as stored in `self.last_values` by
`_update_last_value`. -/
structure LastValue : Type where
  value : PyVal
  quality : ℤ
  timestamp : ℚ
  deriving DecidableEq

/-- `config.get('on_change_enabled', False)` where `config` is
`self.tag_configs.get(tag_id, {})`: a missing config reads as disabled. -/
def cfg_enabled : Option TagConfig → Bool
  | Option.none => false
  | some c => c.on_change_enabled

/-- `config.get('on_change_heartbeat_ms')`: a missing config gives `None`,
which is falsy in `if force_interval and force_interval > 0`; returning `0`
makes that guard come out the same way. -/
def cfg_heartbeat : Option TagConfig → ℚ
  | Option.none => 0
  | some c => c.on_change_heartbeat_ms

/-- `config.get('on_change_deadband', 0)`. -/
def cfg_deadband : Option TagConfig → ℚ
  | Option.none => 0
  | some c => c.on_change_deadband

/-- `config.get('on_change_deadband_type')` (no default: missing reads as
`None`, which is not equal to the string `'percent'`). -/
def cfg_deadband_type : Option TagConfig → Option String
  | Option.none => Option.none
  | some c => some c.on_change_deadband_type

/-- Embedding of `PyComm3Worker._has_value_changed` (worker lines 328-391),
deciding whether a proposed `(new_value, new_quality)` sample for a tag is
published.  `config` is `self.tag_configs.get(tag_id, {})` (absent map
entry = `Option.none`), `last` is `self.last_values.get(tag_id)`, and
`now_ms` stands for `time.time() * 1000`. -/
def has_value_changed (config : Option TagConfig) (last : Option LastValue)
    (new_value : PyVal) (new_quality : ℤ) (now_ms : ℚ) : Bool :=
  if cfg_enabled config = false then true
  else
    match last with
    | Option.none => true
    | some l =>
      if l.quality ≠ new_quality then true
      else if 0 < cfg_heartbeat config ∧ cfg_heartbeat config ≤ now_ms - l.timestamp then
        true
      else
        let old_value := l.value
        if old_value = PyVal.none ∨ new_value = PyVal.none then
          !(pyEq old_value new_value)
        else
          match toExt new_value, toExt old_value with
          | some newN, some oldN =>
            let deadband := cfg_deadband config
            if 0 < deadband then
              if cfg_deadband_type config = some "percent" then
                let base :=
                  if !(PyFloat.eqb oldN (PyFloat.finite 0)) then oldN.abs
                  else PyFloat.finite 1
                let percent_change := (((newN.sub oldN).div base).abs).mul100
                if percent_change.lt (PyFloat.finite deadband) then false else true
              else
                let diff := (newN.sub oldN).abs
                if diff.lt (PyFloat.finite deadband) then false else true
            else
              if PyFloat.eqb oldN newN then false else true
          | _, _ =>
            if pyEq old_value new_value then false else true

/-- Modelled from the spec: the numeric view of §4.1 step 6, which reads
"If both are numeric (integer or float)" — booleans are not numeric here,
and a non-finite float (which the sanitizer has already removed) is not
given a numeric value. -/
def specNum : PyVal → Option ℚ
  | PyVal.int n => some (n : ℚ)
  | PyVal.float (PyFloat.finite q) => some q
  | _ => Option.none

/-- Modelled from the spec: value equality as used by §4.1 steps 6-7 —
numeric pairs compare by value, all other pairs compare as tagged
variants. -/
def specValEq (a b : PyVal) : Bool :=
  match specNum a, specNum b with
  | some x, some y => x = y
  | _, _ => a = b

/-- Modelled from the spec: the Change Filter of §4.1, evaluated strictly in
the 7-step order the spec gives. -/
def spec_change_filter (config : TagConfig) (last : Option LastValue)
    (new_value : PyVal) (new_quality : ℤ) (now_ms : ℚ) : Bool :=
  if config.on_change_enabled = false then true
  else
    match last with
    | Option.none => true
    | some l =>
      if l.quality ≠ new_quality then true
      else if 0 < config.on_change_heartbeat_ms ∧
          config.on_change_heartbeat_ms ≤ now_ms - l.timestamp then true
      else if Bool.xor (decide (l.value = PyVal.none)) (decide (new_value = PyVal.none)) then
        true
      else
        match specNum l.value, specNum new_value with
        | some oldq, some newq =>
          if 0 < config.on_change_deadband then
            if config.on_change_deadband_type = "percent" then
              let base := if oldq ≠ 0 then |oldq| else 1
              decide (config.on_change_deadband ≤ |newq - oldq| / base * 100)
            else
              decide (config.on_change_deadband ≤ |newq - oldq|)
          else
            !(specValEq l.value new_value)
        | _, _ => !(specValEq l.value new_value)

/-- Values on which the worker's filter and the spec's filter are compared
for claim C3: not a boolean (Python treats booleans as numbers, the spec
does not) and not a non-finite float (the sanitizer removes those before
the filter runs). -/
def plainVal : PyVal → Bool
  | PyVal.bool _ => false
  | PyVal.float PyFloat.nan => false
  | PyVal.float PyFloat.inf => false
  | PyVal.float PyFloat.ninf => false
  | _ => true

/-- Helper: strictly-less decides to the negation of the reversed
less-or-equal. -/
theorem decide_lt_eq_not_decide_le (a b : ℚ) : decide (a < b) = !decide (b ≤ a) := by
  by_cases h : a < b
  · simp [h, not_le.mpr h]
  · simp [h, not_lt.mp h]

/-- Helper: the worker's numeric deadband branch, computed through `PyFloat`
arithmetic on finite values, agrees with the spec's exact rational
formulas. -/
theorem numeric_branch_eq (db : ℚ) (ty : String) (oldq newq : ℚ) :
    (if 0 < db then
      if ty = "percent" then
        (if PyFloat.lt
            ((((PyFloat.finite newq).sub (PyFloat.finite oldq)).div
              (if !(PyFloat.eqb (PyFloat.finite oldq) (PyFloat.finite 0)) then
                (PyFloat.finite oldq).abs
              else PyFloat.finite 1)).abs).mul100
            (PyFloat.finite db) then false else true)
      else
        (if PyFloat.lt ((PyFloat.finite newq).sub (PyFloat.finite oldq)).abs
            (PyFloat.finite db) then false else true)
    else
      (if PyFloat.eqb (PyFloat.finite oldq) (PyFloat.finite newq) then false else true)) =
    (if 0 < db then
      if ty = "percent" then
        decide (db ≤ |newq - oldq| / (if oldq ≠ 0 then |oldq| else 1) * 100)
      else
        decide (db ≤ |newq - oldq|)
    else !(decide (oldq = newq))) := by
  by_cases hdb : 0 < db
  · by_cases hty : ty = "percent"
    · by_cases h0 : oldq = 0
      · simp [hdb, hty, h0, PyFloat.sub, PyFloat.eqb, PyFloat.abs, PyFloat.div,
          PyFloat.mul100, PyFloat.lt, decide_lt_eq_not_decide_le]
      · have habs : |oldq| ≠ 0 := abs_ne_zero.mpr h0
        simp only [hdb, hty, h0, if_true, if_false, PyFloat.sub, PyFloat.eqb,
          PyFloat.abs, decide_eq_true_eq, ite_true, ite_false]
        simp [PyFloat.div, habs, PyFloat.abs, PyFloat.mul100, PyFloat.lt,
          abs_div, abs_abs, h0, decide_lt_eq_not_decide_le]
    · simp [hdb, hty, PyFloat.sub, PyFloat.eqb, PyFloat.abs, PyFloat.lt,
        decide_lt_eq_not_decide_le]
  · simp [hdb, PyFloat.eqb]

/-- Helper: a plain value is null, a string, or numeric with an agreed exact
rational value in both the worker's view (`toExt`) and the spec's view
(`specNum`). -/
theorem plain_cases (v : PyVal) (h : plainVal v = true) :
    v = PyVal.none ∨ (∃ s, v = PyVal.str s) ∨
      (∃ q, toExt v = some (PyFloat.finite q) ∧ specNum v = some q ∧ v ≠ PyVal.none) := by
  cases v with
  | none => exact Or.inl rfl
  | bool b => simp [plainVal] at h
  | int n => exact Or.inr (Or.inr ⟨(n : ℚ), by simp [toExt], by simp [specNum], by simp⟩)
  | float f =>
    cases f with
    | finite q =>
      exact Or.inr (Or.inr ⟨q, by simp [toExt], by simp [specNum], by simp⟩)
    | nan => simp [plainVal] at h
    | inf => simp [plainVal] at h
    | ninf => simp [plainVal] at h
  | str s => exact Or.inr (Or.inl ⟨s, rfl⟩)

/-- Helper: a boolean if-then-else returning `false`/`true` is the negated
condition. -/
theorem if_bool_not (c : Prop) [Decidable c] : (if c then false else true) = !decide c := by
  by_cases h : c <;> simp [h]

/-- C3 (amended): on every input whose old and new values are neither
booleans nor non-finite floats, `_has_value_changed` computes exactly the
spec's 7-step Change Filter decision.  (Booleans are excluded because
Python's `isinstance(value, (int, float))` treats them as numbers, sending
them through step 6 instead of the spec's step 7; non-finite floats never
reach the filter because the sanitizer runs first.) -/
theorem c3_filter_follows_spec_steps (config : TagConfig) (last : Option LastValue)
    (new_value : PyVal) (new_quality : ℤ) (now_ms : ℚ)
    (hnew : plainVal new_value = true)
    (hold : ∀ l, last = some l → plainVal l.value = true) :
    has_value_changed (some config) last new_value new_quality now_ms =
      spec_change_filter config last new_value new_quality now_ms := by
  cases last with
  | none => simp [has_value_changed, spec_change_filter, cfg_enabled]
  | some l =>
    have hl := hold l rfl
    by_cases hen : config.on_change_enabled = false
    · simp [has_value_changed, spec_change_filter, cfg_enabled, hen]
    · by_cases hq : l.quality = new_quality
      · by_cases hhb : 0 < config.on_change_heartbeat_ms ∧
            config.on_change_heartbeat_ms ≤ now_ms - l.timestamp
        · simp [has_value_changed, spec_change_filter, cfg_enabled, cfg_heartbeat,
            hen, hq, hhb]
        · rcases plain_cases l.value hl with hov | ⟨s, hov⟩ | ⟨oldq, hto, hsp, hnn⟩ <;>
            rcases plain_cases new_value hnew with hnv | ⟨t, hnv⟩ | ⟨newq, hto2, hsp2, hnn2⟩
          · simp [has_value_changed, spec_change_filter, cfg_enabled, cfg_heartbeat,
              hen, hq, hhb, hov, hnv, pyEq, toExt, specNum, specValEq]
          · simp [has_value_changed, spec_change_filter, cfg_enabled, cfg_heartbeat,
              hen, hq, hhb, hov, hnv, pyEq, toExt, specNum, specValEq]
          · simp [has_value_changed, spec_change_filter, cfg_enabled, cfg_heartbeat,
              hen, hq, hhb, hov, hnn2, hto2, hsp2, pyEq, toExt, specNum, specValEq]
          · simp [has_value_changed, spec_change_filter, cfg_enabled, cfg_heartbeat,
              hen, hq, hhb, hov, hnv, pyEq, toExt, specNum, specValEq]
          · simp [has_value_changed, spec_change_filter, cfg_enabled, cfg_heartbeat,
              hen, hq, hhb, hov, hnv, pyEq, toExt, specNum, specValEq]
          · cases new_value <;>
              simp_all [has_value_changed, spec_change_filter, cfg_enabled, cfg_heartbeat,
                hen, hq, hhb, hov, pyEq, toExt, specNum, specValEq, plainVal]
          · simp [has_value_changed, spec_change_filter, cfg_enabled, cfg_heartbeat,
              hen, hq, hhb, hnv, hnn, hto, hsp, pyEq, toExt, specNum, specValEq]
          · cases hlv : l.value <;>
              simp_all [has_value_changed, spec_change_filter, cfg_enabled, cfg_heartbeat,
                hen, hq, hhb, hnv, pyEq, toExt, specNum, specValEq, plainVal]
          · by_cases hdb : 0 < config.on_change_deadband
            · by_cases hty : config.on_change_deadband_type = "percent"
              · by_cases h0 : oldq = 0
                · simp [has_value_changed, spec_change_filter, cfg_enabled, cfg_heartbeat,
                    cfg_deadband, cfg_deadband_type, hen, hq, hhb, hto, hsp, hto2, hsp2,
                    hnn, hnn2, hdb, hty, h0, PyFloat.sub, PyFloat.eqb, PyFloat.abs,
                    PyFloat.div, PyFloat.mul100, PyFloat.lt, decide_lt_eq_not_decide_le,
                    specValEq, if_bool_not]
                · have habs : |oldq| ≠ 0 := abs_ne_zero.mpr h0
                  simp [has_value_changed, spec_change_filter, cfg_enabled, cfg_heartbeat,
                    cfg_deadband, cfg_deadband_type, hen, hq, hhb, hto, hsp, hto2, hsp2,
                    hnn, hnn2, hdb, hty, h0, habs, PyFloat.sub, PyFloat.eqb, PyFloat.abs,
                    PyFloat.div, PyFloat.mul100, PyFloat.lt, abs_div, abs_abs,
                    decide_lt_eq_not_decide_le, specValEq, if_bool_not]
              · simp [has_value_changed, spec_change_filter, cfg_enabled, cfg_heartbeat,
                  cfg_deadband, cfg_deadband_type, hen, hq, hhb, hto, hsp, hto2, hsp2,
                  hnn, hnn2, hdb, hty, PyFloat.sub, PyFloat.eqb, PyFloat.abs, PyFloat.lt,
                  decide_lt_eq_not_decide_le, specValEq, if_bool_not]
            · simp [has_value_changed, spec_change_filter, cfg_enabled, cfg_heartbeat,
                cfg_deadband, cfg_deadband_type, hen, hq, hhb, hto, hsp, hto2, hsp2,
                hnn, hnn2, hdb, PyFloat.eqb, specValEq, if_bool_not]
      · simp [has_value_changed, spec_change_filter, cfg_enabled, hen, hq]

/-- C3 counterexample: with an absolute deadband of 2, a last value of
`False` and a new value of `True` (same quality, heartbeat disabled), the
worker treats the booleans as the numbers 0 and 1 and skips the sample,
while the spec's step 7 (bool pairs compare by inequality) publishes it. -/
theorem c3_counterexample :
    has_value_changed (some ⟨true, 2, "absolute", 0⟩)
        (some ⟨PyVal.bool false, 0, 0⟩) (PyVal.bool true) 0 1 = false ∧
    spec_change_filter ⟨true, 2, "absolute", 0⟩
        (some ⟨PyVal.bool false, 0, 0⟩) (PyVal.bool true) 0 1 = true := by
  constructor
  · simp [has_value_changed, cfg_enabled, cfg_heartbeat, cfg_deadband, cfg_deadband_type,
      toExt, PyFloat.sub, PyFloat.abs, PyFloat.lt]
  · simp [spec_change_filter, specNum, specValEq]

/-- C3 witness: the amended equivalence applied at a concrete numeric
input. -/
theorem c3_witness :
    plainVal (PyVal.int 11) = true ∧
    has_value_changed (some ⟨true, 1, "percent", 0⟩) (some ⟨PyVal.int 10, 0, 0⟩)
        (PyVal.int 11) 0 5 =
      spec_change_filter ⟨true, 1, "percent", 0⟩ (some ⟨PyVal.int 10, 0, 0⟩)
        (PyVal.int 11) 0 5 :=
  ⟨by decide, c3_filter_follows_spec_steps _ _ _ _ _ (by decide)
    (fun l h => by cases h; decide)⟩

/-- C7: `sanitize_value` maps NaN and both infinities to `None` and is the
identity on every other value. -/
theorem c7_sanitizer_maps_nonfinite_to_null :
    (sanitize_value (PyVal.float PyFloat.nan) = PyVal.none ∧
     sanitize_value (PyVal.float PyFloat.inf) = PyVal.none ∧
     sanitize_value (PyVal.float PyFloat.ninf) = PyVal.none) ∧
    ∀ v : PyVal, v ≠ PyVal.float PyFloat.nan → v ≠ PyVal.float PyFloat.inf →
      v ≠ PyVal.float PyFloat.ninf → sanitize_value v = v := by
  refine ⟨⟨rfl, rfl, rfl⟩, ?_⟩
  intro v h1 h2 h3
  cases v with
  | float f =>
    cases f with
    | finite q => rfl
    | nan => exact absurd rfl h1
    | inf => exact absurd rfl h2
    | ninf => exact absurd rfl h3
  | none => rfl
  | bool b => rfl
  | int n => rfl
  | str s => rfl

/-- C7 witness: identity on a concrete non-float value. -/
theorem c7_witness : sanitize_value (PyVal.str "ok") = PyVal.str "ok" :=
  c7_sanitizer_maps_nonfinite_to_null.2 _ (by decide) (by decide) (by decide)

/-- Python dict assignment `m[k] = v` on an insertion-ordered association
list: an existing key keeps its position and gets the new value, a new key
is appended at the end. -/
def dinsert {K V : Type} [DecidableEq K] : List (K × V) → K → V → List (K × V)
  | [], k, v => [(k, v)]
  | p :: rest, k, v => if p.1 = k then (k, v) :: rest else p :: dinsert rest k v

/-- Python dict lookup `m.get(k)`. -/
def dlookup {K V : Type} [DecidableEq K] : List (K × V) → K → Option V
  | [], _ => Option.none
  | p :: rest, k => if p.1 = k then some p.2 else dlookup rest k

theorem dlookup_dinsert_self {K V : Type} [DecidableEq K]
    (m : List (K × V)) (k : K) (v : V) : dlookup (dinsert m k v) k = some v := by
  induction m with
  | nil => simp [dinsert, dlookup]
  | cons p rest ih =>
    by_cases h : p.1 = k
    · simp [dinsert, h, dlookup]
    · simp [dinsert, h, dlookup, ih]

theorem dlookup_dinsert_ne {K V : Type} [DecidableEq K]
    (m : List (K × V)) (k k₂ : K) (v : V) (h : k₂ ≠ k) :
    dlookup (dinsert m k v) k₂ = dlookup m k₂ := by
  have hk : ¬(k = k₂) := fun hh => h hh.symm
  induction m with
  | nil => simp [dinsert, dlookup, hk]
  | cons p rest ih =>
    by_cases hp : p.1 = k
    · simp [dinsert, hp, dlookup, hk]
    · simp only [dinsert, hp, ite_false]
      by_cases hp2 : p.1 = k₂
      · simp [dlookup, hp2]
      · simp [dlookup, hp2, ih]

/-- Embedding of `PyComm3Worker._update_last_value` (worker lines 393-400):
store `(value, quality, now)` for the tag. -/
def update_last_value (st : List (ℤ × LastValue)) (tag_id : ℤ) (value : PyVal)
    (quality : ℤ) (now_ms : ℚ) : List (ℤ × LastValue) :=
  dinsert st tag_id ⟨value, quality, now_ms⟩

/-- The per-sample publish step of `poll_group` (worker lines 1342-1350 and
1367-1375): consult `_has_value_changed`; on publish, report the frame and
call `_update_last_value`; on skip, leave the state alone. -/
def process_sample (cfgs : List (ℤ × TagConfig)) (st : List (ℤ × LastValue))
    (tag_id : ℤ) (value : PyVal) (q : ℤ) (now_ms : ℚ) :
    Bool × List (ℤ × LastValue) :=
  if has_value_changed (dlookup cfgs tag_id) (dlookup st tag_id) value q now_ms then
    (true, update_last_value st tag_id value q now_ms)
  else (false, st)

/-- C6: when the Change Filter skips, the last-value table is completely
unchanged; when it publishes, the tag's record becomes `(value, quality,
now)` and every other tag's record is untouched. -/
theorem c6_skip_keeps_publish_replaces (cfgs : List (ℤ × TagConfig))
    (st : List (ℤ × LastValue)) (tag_id : ℤ) (value : PyVal) (q : ℤ) (now_ms : ℚ) :
    ((process_sample cfgs st tag_id value q now_ms).1 = false →
      (process_sample cfgs st tag_id value q now_ms).2 = st) ∧
    ((process_sample cfgs st tag_id value q now_ms).1 = true →
      dlookup (process_sample cfgs st tag_id value q now_ms).2 tag_id =
          some ⟨value, q, now_ms⟩ ∧
        ∀ t, t ≠ tag_id →
          dlookup (process_sample cfgs st tag_id value q now_ms).2 t = dlookup st t) := by
  by_cases h : has_value_changed (dlookup cfgs tag_id) (dlookup st tag_id) value q now_ms
  · refine ⟨by simp [process_sample, h], fun _ => ⟨?_, fun t ht => ?_⟩⟩
    · simp [process_sample, h, update_last_value, dlookup_dinsert_self]
    · simp [process_sample, h, update_last_value, dlookup_dinsert_ne _ _ _ _ ht]
  · simp [process_sample, h]

/-- C6 witness: a concrete skipped sample (same value, deadband 0) leaves
the table untouched. -/
theorem c6_witness :
    (process_sample [((1 : ℤ), (⟨true, 0, "absolute", 0⟩ : TagConfig))]
        [((1 : ℤ), (⟨PyVal.int 5, 0, 0⟩ : LastValue))] 1 (PyVal.int 5) 0 9).1 = false ∧
    (process_sample [((1 : ℤ), (⟨true, 0, "absolute", 0⟩ : TagConfig))]
        [((1 : ℤ), (⟨PyVal.int 5, 0, 0⟩ : LastValue))] 1 (PyVal.int 5) 0 9).2 =
      [((1 : ℤ), (⟨PyVal.int 5, 0, 0⟩ : LastValue))] := by
  have hskip : (process_sample [((1 : ℤ), (⟨true, 0, "absolute", 0⟩ : TagConfig))]
      [((1 : ℤ), (⟨PyVal.int 5, 0, 0⟩ : LastValue))] 1 (PyVal.int 5) 0 9).1 = false := by
    simp [process_sample, has_value_changed, cfg_enabled, cfg_heartbeat, cfg_deadband,
      cfg_deadband_type, dlookup, toExt, PyFloat.eqb]
  exact ⟨hskip,
    (c6_skip_keeps_publish_replaces [((1 : ℤ), (⟨true, 0, "absolute", 0⟩ : TagConfig))]
      [((1 : ℤ), (⟨PyVal.int 5, 0, 0⟩ : LastValue))] 1 (PyVal.int 5) 0 9).1 hskip⟩

/-- One poll-response entry as the emit loop of `poll_group` (worker lines
1307-1375) sees it, with the tag lookups already resolved: an individual
(scalar or sparse-element) result carrying its `tag_id`, or a full-array
result carrying the base's `{subscribed index → tag_id}` map.
`Except.error` stands for a result whose `error` field is set. -/
inductive PollEntry : Type where
  | scalar (tag_id : ℤ) (res : Except Unit PyVal)
  | full_array (index_map : List (ℕ × ℤ)) (res : Except Unit (List PyVal))

/-- Value of array element `i` (worker lines 1333-1337): the sanitized
element when `i < len(array_values)`, else `None`. -/
def elem_value (vs : List PyVal) (i : ℕ) : PyVal :=
  if h : i < vs.length then sanitize_value (vs.get ⟨i, h⟩) else PyVal.none

/-- A telemetry frame as printed by `poll_group`. -/
structure Frame : Type where
  tag_id : ℤ
  v : PyVal
  q : ℤ
  ts : String
  deriving DecidableEq

/-- The per-element loop over a successful full-array result (worker lines
1330-1350): each subscribed index is filtered through `process_sample`
against the state left by the previous elements. -/
def process_array_elems (cfgs : List (ℤ × TagConfig)) (now_ms : ℚ) (ts : String)
    (vs : List PyVal) :
    List (ℕ × ℤ) → List (ℤ × LastValue) → List Frame × List (ℤ × LastValue)
  | [], st => ([], st)
  | (i, t) :: rest, st =>
    let v := elem_value vs i
    match process_sample cfgs st t v 0 now_ms with
    | (true, st1) =>
      let r := process_array_elems cfgs now_ms ts vs rest st1
      (⟨t, v, 0, ts⟩ :: r.1, r.2)
    | (false, st1) => process_array_elems cfgs now_ms ts vs rest st1

/-- Embedding of the telemetry-emission loop body of `poll_group` (worker
lines 1307-1375) for one response entry: scalar results get `(None, 1)` on
error or `(sanitized, 0)` on success and then go through the filter; a
successful full-array result feeds each subscribed element through the
filter; an errored full-array result prints `(None, 1)` frames for every
subscribed tag directly. -/
def process_entry (cfgs : List (ℤ × TagConfig)) (now_ms : ℚ) (ts : String) :
    PollEntry → List (ℤ × LastValue) → List Frame × List (ℤ × LastValue)
  | PollEntry.scalar t res, st =>
    let v := match res with
      | Except.error _ => PyVal.none
      | Except.ok w => sanitize_value w
    let q : ℤ := match res with
      | Except.error _ => 1
      | Except.ok _ => 0
    match process_sample cfgs st t v q now_ms with
    | (true, st1) => ([⟨t, v, q, ts⟩], st1)
    | (false, st1) => ([], st1)
  | PollEntry.full_array im res, st =>
    match res with
    | Except.error _ => (im.map (fun p => ⟨p.2, PyVal.none, 1, ts⟩), st)
    | Except.ok vs => process_array_elems cfgs now_ms ts vs im st

/-- C1 counterexample: for an errored full-array read with one subscribed
tag (tag 7) and empty last-value state, a `(None, bad)` frame is emitted,
the Change Filter (which, having no last-value record, would publish) is
never consulted, and no last-value record is written — so the emitted
triple did not "go through the Change Filter and update last-value state on
publish" as the claim states. -/
theorem c1_counterexample :
    process_entry [] 0 "t0" (PollEntry.full_array [(0, 7)] (Except.error ())) [] =
      ([⟨7, PyVal.none, 1, "t0"⟩], []) ∧
    has_value_changed (dlookup ([] : List (ℤ × TagConfig)) 7)
        (dlookup ([] : List (ℤ × LastValue)) 7) PyVal.none 1 0 = true ∧
    dlookup (process_entry [] 0 "t0"
        (PollEntry.full_array [(0, 7)] (Except.error ())) []).2 7 = Option.none :=
  ⟨rfl, by decide, rfl⟩

/-- C1 (amended): scalar and sparse-element entries, and every element of a
successful full-array entry, pass their `(tag_id, value, quality)` triple
through the Change Filter and update the last-value record exactly when the
filter publishes; but an errored full-array read emits its `(None, bad)`
frames unconditionally, bypassing the filter and leaving last-value state
unchanged. -/
theorem c1_entry_filtering (cfgs : List (ℤ × TagConfig)) (now_ms : ℚ) (ts : String) :
    (∀ (im : List (ℕ × ℤ)) (u : Unit) (st : List (ℤ × LastValue)),
      process_entry cfgs now_ms ts (PollEntry.full_array im (Except.error u)) st =
        (im.map (fun p => ⟨p.2, PyVal.none, 1, ts⟩), st)) ∧
    (∀ (t : ℤ) (res : Except Unit PyVal) (st : List (ℤ × LastValue)),
      process_entry cfgs now_ms ts (PollEntry.scalar t res) st =
        (let v := match res with
          | Except.error _ => PyVal.none
          | Except.ok w => sanitize_value w
         let q : ℤ := match res with
          | Except.error _ => 1
          | Except.ok _ => 0
         if has_value_changed (dlookup cfgs t) (dlookup st t) v q now_ms then
           ([⟨t, v, q, ts⟩], update_last_value st t v q now_ms)
         else ([], st))) ∧
    (∀ (vs : List PyVal) (st : List (ℤ × LastValue)),
      process_entry cfgs now_ms ts (PollEntry.full_array [] (Except.ok vs)) st =
        ([], st)) ∧
    (∀ (i : ℕ) (t : ℤ) (rest : List (ℕ × ℤ)) (vs : List PyVal)
        (st : List (ℤ × LastValue)),
      process_entry cfgs now_ms ts (PollEntry.full_array ((i, t) :: rest) (Except.ok vs)) st =
        (let v := elem_value vs i
         let s1 := process_sample cfgs st t v 0 now_ms
         let r := process_entry cfgs now_ms ts (PollEntry.full_array rest (Except.ok vs)) s1.2
         ((if s1.1 then [⟨t, v, 0, ts⟩] else []) ++ r.1, r.2))) := by
  refine ⟨fun im u st => rfl, fun t res st => ?_, fun vs st => rfl, fun i t rest vs st => ?_⟩
  · by_cases h : has_value_changed (dlookup cfgs t) (dlookup st t)
        (match res with
          | Except.error _ => PyVal.none
          | Except.ok w => sanitize_value w)
        (match res with
          | Except.error _ => (1 : ℤ)
          | Except.ok _ => 0) now_ms
    · simp [process_entry, process_sample, h]
    · simp [process_entry, process_sample, h]
  · by_cases h : has_value_changed (dlookup cfgs t) (dlookup st t) (elem_value vs i) 0 now_ms
    · simp [process_entry, process_array_elems, process_sample, h]
    · simp [process_entry, process_array_elems, process_sample, h]

/-- Tag descriptor entry of `self.tag_map` as built by `subscribe_polling`
(worker lines 836-842). -/
structure TagInfo : Type where
  tag_id : ℤ
  tag_name : List Char
  data_type : String
  poll_group_id : ℤ
  array_size : ℤ
  deriving DecidableEq

/-- One requested poll group of the `subscribe_polling` params
(`poll_groups[gid] = {rate_ms, tag_ids}`, with `gid = int(group_id_str)`). -/
structure GroupReq : Type where
  group_id : ℤ
  rate_ms : ℤ
  tag_ids : List ℤ
  deriving DecidableEq

/-- One installed poll group of `self.poll_groups` (worker lines 876-893);
the runtime fields `last_poll`/`task` carry no claim-relevant data and are
omitted. -/
structure PollGroup : Type where
  group_id : ℤ
  rate_ms : ℤ
  tag_ids : List ℤ
  tags : List TagInfo
  deriving DecidableEq

/-- One tag element of the `subscribe_polling` params; `Option.none` means
the field is absent from the request. -/
structure TagSub : Type where
  tag_id : ℤ
  tag_name : List Char
  data_type : Option String
  poll_group_id : ℤ
  array_size : Option ℤ
  on_change_enabled : Option Bool
  on_change_deadband : Option ℚ
  on_change_deadband_type : Option String
  on_change_heartbeat_ms : Option ℚ

/-- The worker-state fields the claims touch (subset of `PyComm3Worker`'s
instance attributes; `poll_tasks` and `group_connections` are kept only as
lists of ids since the claims only need that they are cleared). -/
structure WorkerState : Type where
  connected : Bool
  polling : Bool
  poll_tasks : List ℤ
  group_connections : List ℤ
  poll_groups : List PollGroup
  tag_map : List (ℤ × TagInfo)
  tag_configs : List (ℤ × TagConfig)
  last_values : List (ℤ × LastValue)
  max_tags_per_group : ℕ
  max_concurrent_connections : ℕ

/-- Embedding of `PyComm3Worker.stop_polling` (worker lines 920-957): stop
polling, cancel and clear the task table, close and clear the per-group
connections.  `self.last_values` is not touched. -/
def stop_polling (s : WorkerState) : WorkerState :=
  { s with polling := false, poll_tasks := [], group_connections := [] }

/-- Embedding of `PyComm3Worker.disconnect` (worker lines 173-189): drop the
session, mark disconnected, and clear the last-value cache. -/
def disconnect (s : WorkerState) : WorkerState :=
  { s with connected := false, last_values := [] }

/-- The change-detection config stored for one request tag (worker lines
845-850): note the 60000 ms default for a missing heartbeat field. -/
def make_tag_config (t : TagSub) : TagConfig :=
  { on_change_enabled := t.on_change_enabled.getD false
    on_change_deadband := t.on_change_deadband.getD 0
    on_change_deadband_type := t.on_change_deadband_type.getD "absolute"
    on_change_heartbeat_ms := t.on_change_heartbeat_ms.getD 60000 }

/-- The tag-map entry stored for one request tag (worker lines 836-842). -/
def make_tag_info (t : TagSub) : TagInfo :=
  { tag_id := t.tag_id
    tag_name := t.tag_name
    data_type := t.data_type.getD "UNKNOWN"
    poll_group_id := t.poll_group_id
    array_size := t.array_size.getD 1 }

/-- Python chunking `[l[i:i+k] for i in range(0, len(l), k)]` (worker line
866), for `k ≥ 1`: consecutive slices of length `k`, last one possibly
shorter. -/
def chunksOf {α : Type} (k : ℕ) : List α → List (List α)
  | [] => []
  | x :: xs => (x :: xs.take (k - 1)) :: chunksOf k (xs.drop (k - 1))
  termination_by l => l.length
  decreasing_by simp [List.length_drop]; omega

/-- Python `max(int(gid) for gid in poll_groups.keys())` on a nonempty
request map (`0` is returned for the empty list, where the worker would not
evaluate the `max` at all). -/
def max_gid : List GroupReq → ℤ
  | [] => 0
  | [r] => r.group_id
  | r :: rs => max r.group_id (max_gid rs)

/-- Build one installed group (worker lines 876-882 / 887-893): keep the
requested `rate_ms` and tag ids and resolve `tags` through the tag map. -/
def mk_group (g : ℤ) (rate : ℤ) (tm : List (ℤ × TagInfo)) (chunk : List ℤ) : PollGroup :=
  { group_id := g
    rate_ms := rate
    tag_ids := chunk
    tags := chunk.filterMap (fun tid => dlookup tm tid) }

/-- Install the chunks after the first one (worker lines 869-882): each gets
the current `next_group_id`, which is then incremented. -/
def assign_rest (rate : ℤ) (tm : List (ℤ × TagInfo)) :
    ℤ → List (List ℤ) → List PollGroup
  | _, [] => []
  | next, c :: cs => mk_group next rate tm c :: assign_rest rate tm (next + 1) cs

/-- Install one requested group (worker lines 856-893): small groups are
kept as-is; oversized groups are chunked, the first chunk keeping the
requested id and later chunks consuming fresh ids starting at `next`.
Returns the installed groups and the updated `next_group_id`. -/
def expand_group (maxT : ℕ) (tm : List (ℤ × TagInfo)) (next : ℤ) (r : GroupReq) :
    List PollGroup × ℤ :=
  if r.tag_ids.length ≤ maxT then ([mk_group r.group_id r.rate_ms tm r.tag_ids], next)
  else
    match chunksOf maxT r.tag_ids with
    | [] => ([], next)
    | c :: cs =>
      (mk_group r.group_id r.rate_ms tm c :: assign_rest r.rate_ms tm next cs,
        next + cs.length)

/-- The loop over requested groups in `subscribe_polling` (worker lines
856-893), threading `next_group_id`. -/
def install_go (maxT : ℕ) (tm : List (ℤ × TagInfo)) :
    ℤ → List GroupReq → List PollGroup
  | _, [] => []
  | next, r :: rs =>
    let e := expand_group maxT tm next r
    e.1 ++ install_go maxT tm e.2 rs

/-- Group installation of `subscribe_polling` (worker lines 852-893):
`next_group_id` starts one above the maximum requested group id (or at 1
when no groups are requested). -/
def install_groups (maxT : ℕ) (tm : List (ℤ × TagInfo)) (reqs : List GroupReq) :
    List PollGroup :=
  let next0 : ℤ := match reqs with
    | [] => 1
    | _ => max_gid reqs + 1
  install_go maxT tm next0 reqs

/-- Result record of `subscribe_polling` (worker lines 908-918; the warning
list carries no claim-relevant data and is omitted). -/
structure SubResult : Type where
  success : Bool
  tag_count : ℕ
  group_count : ℕ
  deriving DecidableEq

/-- Embedding of `PyComm3Worker.subscribe_polling` (worker lines 812-918):
raise (return the state unchanged with no result) when not connected;
otherwise run `stop_polling`, clear the tag and group maps, rebuild the tag
map and change-detection configs (the config map is built on top of the
existing one — the worker never clears `self.tag_configs`), install the
poll groups with oversized-group splitting, and mark polling active.
`self.last_values` is never touched on this path. -/
def subscribe_polling (s : WorkerState) (tags : List TagSub) (reqs : List GroupReq) :
    WorkerState × Option SubResult :=
  if s.connected = false then (s, Option.none)
  else
    let s1 := stop_polling s
    let tm := tags.foldl (fun m t => dinsert m t.tag_id (make_tag_info t))
      ([] : List (ℤ × TagInfo))
    let tc := tags.foldl (fun m t => dinsert m t.tag_id (make_tag_config t)) s1.tag_configs
    let groups := install_groups s.max_tags_per_group tm reqs
    ({ s1 with tag_map := tm, tag_configs := tc, poll_groups := groups, polling := true },
      some { success := true, tag_count := tm.length, group_count := groups.length })

/-- C2 counterexample: a worker holding a last-value record for tag 1
re-subscribes to tag 1; after `subscribe_polling` returns the record is
still there, so the first sample of tag 1 is not treated as a first
sample. -/
theorem c2_counterexample :
    dlookup (subscribe_polling
        ⟨true, false, [], [], [], [], [], [((1 : ℤ), ⟨PyVal.int 5, 0, 0⟩)], 500, 8⟩
        [⟨1, ['T'], Option.none, 1, Option.none, Option.none, Option.none, Option.none,
          Option.none⟩]
        [⟨1, 1000, [1]⟩]).1.last_values 1 = some ⟨PyVal.int 5, 0, 0⟩ := by
  simp [subscribe_polling, stop_polling, dlookup]

/-- C2 (amended): `subscribe_polling` and `stop_polling` leave the
last-value cache exactly as it was (the worker only clears it in
`disconnect`), so a surviving record makes the first post-install sample go
through the ordinary deadband comparison instead of the first-sample
publish. -/
theorem c2_last_values_survive_resubscribe (s : WorkerState) (tags : List TagSub)
    (reqs : List GroupReq) :
    (subscribe_polling s tags reqs).1.last_values = s.last_values ∧
    (stop_polling s).last_values = s.last_values ∧
    (disconnect s).last_values = [] := by
  refine ⟨?_, rfl, rfl⟩
  by_cases h : s.connected = false
  · simp [subscribe_polling, h]
  · simp [subscribe_polling, h, stop_polling]

/-- C10: a subscription tag without an `on_change_heartbeat_ms` field is
stored with a 60000 ms heartbeat (not 0), `subscribe_polling` stores exactly
that config for the tag, and with change detection enabled any sample
arriving 60 s or more after the last publish is force-published. -/
theorem c10_heartbeat_defaults_to_60s (t : TagSub)
    (h : t.on_change_heartbeat_ms = Option.none) :
    (make_tag_config t).on_change_heartbeat_ms = 60000 ∧
    (∀ (s : WorkerState) (reqs : List GroupReq), s.connected = true →
      dlookup (subscribe_polling s [t] reqs).1.tag_configs t.tag_id =
        some (make_tag_config t)) ∧
    (∀ (l : LastValue) (v : PyVal) (q : ℤ) (now_ms : ℚ),
      t.on_change_enabled = some true →
      60000 ≤ now_ms - l.timestamp →
      has_value_changed (some (make_tag_config t)) (some l) v q now_ms = true) := by
  refine ⟨by simp [make_tag_config, h], fun s reqs hc => ?_, fun l v q now_ms hen hhb => ?_⟩
  · simp [subscribe_polling, hc, stop_polling, dlookup_dinsert_self]
  · by_cases hq : l.quality = q
    · simp only [has_value_changed, cfg_enabled, cfg_heartbeat, make_tag_config, h, hen,
        Option.getD_some]
      rw [if_neg (by simp), if_neg (by simpa using hq),
        if_pos ⟨by norm_num, by simpa [h] using hhb⟩]
    · simp only [has_value_changed, cfg_enabled, cfg_heartbeat, make_tag_config, h, hen,
        Option.getD_some]
      rw [if_neg (by simp), if_pos (by simpa using hq)]

/-- C10 witness: the default heartbeat and a concrete forced publish of an
unchanged value 60 s after the last publish. -/
theorem c10_witness :
    (make_tag_config ⟨1, ['T'], Option.none, 1, Option.none, some true, Option.none,
        Option.none, Option.none⟩).on_change_heartbeat_ms = 60000 ∧
    has_value_changed
        (some (make_tag_config ⟨1, ['T'], Option.none, 1, Option.none, some true,
          Option.none, Option.none, Option.none⟩))
        (some ⟨PyVal.int 5, 0, 0⟩) (PyVal.int 5) 0 60000 = true :=
  ⟨(c10_heartbeat_defaults_to_60s _ rfl).1,
    (c10_heartbeat_defaults_to_60s _ rfl).2.2 _ _ _ _ rfl (by norm_num)⟩

theorem chunksOf_nil {α : Type} (k : ℕ) : chunksOf k ([] : List α) = [] := by
  simp [chunksOf]

theorem chunksOf_cons {α : Type} (k : ℕ) (x : α) (xs : List α) :
    chunksOf k (x :: xs) = (x :: xs.take (k - 1)) :: chunksOf k (xs.drop (k - 1)) := by
  simp [chunksOf]

theorem chunksOf_join {α : Type} (k : ℕ) (l : List α) :
    (chunksOf k l).flatten = l := by
  have key : ∀ (n : ℕ) (l : List α), l.length ≤ n → (chunksOf k l).flatten = l := by
    intro n
    induction n with
    | zero =>
      intro l h
      have : l = [] := List.eq_nil_of_length_eq_zero (Nat.le_zero.mp h)
      simp [this, chunksOf_nil]
    | succ n ih =>
      intro l h
      cases l with
      | nil => simp [chunksOf_nil]
      | cons x xs =>
        rw [chunksOf_cons]
        simp only [List.flatten_cons]
        rw [ih (xs.drop (k - 1)) (by simp only [List.length_drop]; simp only [List.length_cons] at h; omega)]
        rw [List.cons_append, List.take_append_drop]
  exact key l.length l le_rfl

theorem chunksOf_length_le {α : Type} (k : ℕ) (hk : 0 < k) (l : List α) :
    ∀ c ∈ chunksOf k l, c.length ≤ k := by
  have key : ∀ (n : ℕ) (l : List α), l.length ≤ n → ∀ c ∈ chunksOf k l, c.length ≤ k := by
    intro n
    induction n with
    | zero =>
      intro l h
      have : l = [] := List.eq_nil_of_length_eq_zero (Nat.le_zero.mp h)
      simp [this, chunksOf_nil]
    | succ n ih =>
      intro l h c hc
      cases l with
      | nil => simp [chunksOf_nil] at hc
      | cons x xs =>
        rw [chunksOf_cons] at hc
        rcases List.mem_cons.mp hc with h1 | h2
        · subst h1
          simp only [List.length_cons, List.length_take]
          omega
        · exact ih (xs.drop (k - 1)) (by simp only [List.length_drop]; simp only [List.length_cons] at h; omega) c h2
  exact key l.length l le_rfl

theorem chunksOf_sublist {α : Type} (k : ℕ) (l : List α) :
    ∀ c ∈ chunksOf k l, c.Sublist l := by
  have key : ∀ (n : ℕ) (l : List α), l.length ≤ n → ∀ c ∈ chunksOf k l, c.Sublist l := by
    intro n
    induction n with
    | zero =>
      intro l h
      have : l = [] := List.eq_nil_of_length_eq_zero (Nat.le_zero.mp h)
      simp [this, chunksOf_nil]
    | succ n ih =>
      intro l h c hc
      cases l with
      | nil => simp [chunksOf_nil] at hc
      | cons x xs =>
        rw [chunksOf_cons] at hc
        rcases List.mem_cons.mp hc with h1 | h2
        · subst h1
          exact List.Sublist.cons₂ x (List.take_sublist _ _)
        · have hsub : c.Sublist (xs.drop (k - 1)) :=
            ih (xs.drop (k - 1)) (by simp only [List.length_drop]; simp only [List.length_cons] at h; omega) c h2
          exact hsub.trans ((List.drop_sublist _ _).trans (List.sublist_cons_self _ _))
  exact key l.length l le_rfl

theorem chunksOf_ne_nil_of_ne_nil {α : Type} (k : ℕ) (l : List α) (h : l ≠ []) :
    chunksOf k l ≠ [] := by
  cases l with
  | nil => exact absurd rfl h
  | cons x xs => rw [chunksOf_cons]; exact List.cons_ne_nil _ _

theorem le_max_gid (r : GroupReq) (reqs : List GroupReq) (h : r ∈ reqs) :
    r.group_id ≤ max_gid reqs := by
  induction reqs with
  | nil => simp at h
  | cons a rest ih =>
    cases rest with
    | nil =>
      rcases List.mem_cons.mp h with h1 | h1
      · subst h1; simp [max_gid]
      · simp at h1
    | cons b rest2 =>
      rcases List.mem_cons.mp h with h1 | h1
      · subst h1; simp only [max_gid]; exact le_max_left _ _
      · exact le_trans (ih h1) (by simp only [max_gid]; exact le_max_right _ _)

theorem assign_rest_map_tag_ids (rate : ℤ) (tm : List (ℤ × TagInfo)) :
    ∀ (next : ℤ) (cs : List (List ℤ)),
      (assign_rest rate tm next cs).map PollGroup.tag_ids = cs := by
  intro next cs
  induction cs generalizing next with
  | nil => simp [assign_rest]
  | cons c rest ih => simp [assign_rest, mk_group, ih]

theorem assign_rest_mem (rate : ℤ) (tm : List (ℤ × TagInfo)) :
    ∀ (next : ℤ) (cs : List (List ℤ)) (g : PollGroup), g ∈ assign_rest rate tm next cs →
      g.rate_ms = rate ∧ g.tag_ids ∈ cs ∧ next ≤ g.group_id := by
  intro next cs
  induction cs generalizing next with
  | nil => intro g hg; simp [assign_rest] at hg
  | cons c rest ih =>
    intro g hg
    rcases List.mem_cons.mp hg with h1 | h1
    · subst h1; exact ⟨rfl, by simp [mk_group], by simp [mk_group]⟩
    · obtain ⟨h2, h3, h4⟩ := ih (next + 1) g h1
      exact ⟨h2, List.mem_cons_of_mem _ h3, by omega⟩

theorem expand_group_next_le (maxT : ℕ) (tm : List (ℤ × TagInfo)) (next : ℤ)
    (r : GroupReq) : next ≤ (expand_group maxT tm next r).2 := by
  rw [expand_group]
  by_cases h : r.tag_ids.length ≤ maxT
  · simp [h]
  · simp only [h, if_false, ite_false]
    cases hc : chunksOf maxT r.tag_ids with
    | nil => simp
    | cons c cs => simp

theorem install_go_flatten (maxT : ℕ) (tm : List (ℤ × TagInfo)) :
    ∀ (next : ℤ) (reqs : List GroupReq),
      ((install_go maxT tm next reqs).map PollGroup.tag_ids).flatten =
        ((reqs.map GroupReq.tag_ids)).flatten := by
  intro next reqs
  induction reqs generalizing next with
  | nil => simp [install_go]
  | cons r rs ih =>
    simp only [install_go, List.map_cons, List.flatten_cons, List.map_append,
      List.flatten_append]
    rw [ih]
    congr 1
    rw [expand_group]
    by_cases h : r.tag_ids.length ≤ maxT
    · simp [h, mk_group]
    · simp only [h, if_false, ite_false]
      cases hc : chunksOf maxT r.tag_ids with
      | nil =>
        have hnil : r.tag_ids = [] := by
          by_contra hne
          exact chunksOf_ne_nil_of_ne_nil maxT r.tag_ids hne hc
        simp [hnil]
      | cons c cs =>
        simp only [List.map_cons, List.flatten_cons, mk_group,
          assign_rest_map_tag_ids]
        have := chunksOf_join maxT r.tag_ids
        rw [hc] at this
        simpa using this

theorem install_go_length_le (maxT : ℕ) (hk : 0 < maxT) (tm : List (ℤ × TagInfo)) :
    ∀ (next : ℤ) (reqs : List GroupReq) (g : PollGroup),
      g ∈ install_go maxT tm next reqs → g.tag_ids.length ≤ maxT := by
  intro next reqs
  induction reqs generalizing next with
  | nil => intro g hg; simp [install_go] at hg
  | cons r rs ih =>
    intro g hg
    simp only [install_go, List.mem_append] at hg
    rcases hg with hg | hg
    · rw [expand_group] at hg
      by_cases h : r.tag_ids.length ≤ maxT
      · simp only [h, ite_true, List.mem_singleton] at hg
        subst hg
        simpa [mk_group] using h
      · simp only [h, ite_false] at hg
        cases hc : chunksOf maxT r.tag_ids with
        | nil => rw [hc] at hg; simp at hg
        | cons c cs =>
          rw [hc] at hg
          rcases List.mem_cons.mp hg with h1 | h1
          · subst h1
            have : c ∈ chunksOf maxT r.tag_ids := by rw [hc]; exact List.mem_cons_self _ _
            simpa [mk_group] using chunksOf_length_le maxT hk r.tag_ids c this
          · obtain ⟨_, h3, _⟩ := assign_rest_mem r.rate_ms tm next cs g h1
            have : g.tag_ids ∈ chunksOf maxT r.tag_ids := by
              rw [hc]; exact List.mem_cons_of_mem _ h3
            exact chunksOf_length_le maxT hk r.tag_ids _ this
    · exact ih _ g hg

theorem install_go_src (maxT : ℕ) (tm : List (ℤ × TagInfo)) (B : ℤ) :
    ∀ (next : ℤ) (reqs : List GroupReq), B < next →
      ∀ g ∈ install_go maxT tm next reqs,
        ∃ r, r ∈ reqs ∧ g.rate_ms = r.rate_ms ∧ g.tag_ids.Sublist r.tag_ids ∧
          (g.group_id = r.group_id ∨ B < g.group_id) := by
  intro next reqs
  induction reqs generalizing next with
  | nil => intro _ g hg; simp [install_go] at hg
  | cons r rs ih =>
    intro hB g hg
    simp only [install_go, List.mem_append] at hg
    rcases hg with hg | hg
    · rw [expand_group] at hg
      by_cases h : r.tag_ids.length ≤ maxT
      · simp only [h, ite_true, List.mem_singleton] at hg
        subst hg
        exact ⟨r, List.mem_cons_self _ _, rfl, by simp [mk_group], Or.inl (by simp [mk_group])⟩
      · simp only [h, ite_false] at hg
        cases hc : chunksOf maxT r.tag_ids with
        | nil => rw [hc] at hg; simp at hg
        | cons c cs =>
          rw [hc] at hg
          rcases List.mem_cons.mp hg with h1 | h1
          · subst h1
            refine ⟨r, List.mem_cons_self _ _, rfl, ?_, Or.inl (by simp [mk_group])⟩
            have : c ∈ chunksOf maxT r.tag_ids := by rw [hc]; exact List.mem_cons_self _ _
            simpa [mk_group] using chunksOf_sublist maxT r.tag_ids c this
          · obtain ⟨h2, h3, h4⟩ := assign_rest_mem r.rate_ms tm next cs g h1
            refine ⟨r, List.mem_cons_self _ _, h2, ?_, Or.inr (by omega)⟩
            have : g.tag_ids ∈ chunksOf maxT r.tag_ids := by
              rw [hc]; exact List.mem_cons_of_mem _ h3
            exact chunksOf_sublist maxT r.tag_ids _ this
    · have hB2 : B < (expand_group maxT tm next r).2 :=
        lt_of_lt_of_le hB (expand_group_next_le maxT tm next r)
      obtain ⟨r2, hr2, hrest⟩ := ih _ hB2 g hg
      exact ⟨r2, List.mem_cons_of_mem _ hr2, hrest⟩

theorem install_go_keeps_ids (maxT : ℕ) (tm : List (ℤ × TagInfo)) :
    ∀ (next : ℤ) (reqs : List GroupReq) (r : GroupReq), r ∈ reqs →
      ∃ g ∈ install_go maxT tm next reqs,
        g.group_id = r.group_id ∧ g.rate_ms = r.rate_ms := by
  intro next reqs
  induction reqs generalizing next with
  | nil => intro r hr; simp at hr
  | cons a rs ih =>
    intro r hr
    rcases List.mem_cons.mp hr with h1 | h1
    · subst h1
      rw [install_go]
      rw [expand_group]
      by_cases h : r.tag_ids.length ≤ maxT
      · exact ⟨mk_group r.group_id r.rate_ms tm r.tag_ids,
          by simp [h], by simp [mk_group], by simp [mk_group]⟩
      · have hne : r.tag_ids ≠ [] := by
          intro hnil
          rw [hnil] at h
          simp at h
        cases hc : chunksOf maxT r.tag_ids with
        | nil => exact absurd hc (chunksOf_ne_nil_of_ne_nil maxT r.tag_ids hne)
        | cons c cs =>
          refine ⟨mk_group r.group_id r.rate_ms tm c, ?_, by simp [mk_group], by simp [mk_group]⟩
          simp only [h, ite_false, hc, List.mem_append]
          exact Or.inl (List.mem_cons_self _ _)
    · obtain ⟨g, hg, hgs⟩ := ih ((expand_group maxT tm next a).2) r h1
      refine ⟨g, ?_, hgs⟩
      simp only [install_go, List.mem_append]
      exact Or.inr hg

theorem install_groups_flatten (maxT : ℕ) (tm : List (ℤ × TagInfo)) (reqs : List GroupReq) :
    ((install_groups maxT tm reqs).map PollGroup.tag_ids).flatten =
      (reqs.map GroupReq.tag_ids).flatten := by
  cases reqs with
  | nil => simp [install_groups, install_go]
  | cons a rs => simpa [install_groups] using install_go_flatten maxT tm (max_gid (a :: rs) + 1) (a :: rs)

theorem install_groups_length_le (maxT : ℕ) (hk : 0 < maxT) (tm : List (ℤ × TagInfo))
    (reqs : List GroupReq) :
    ∀ g ∈ install_groups maxT tm reqs, g.tag_ids.length ≤ maxT := by
  cases reqs with
  | nil => simp [install_groups, install_go]
  | cons a rs =>
    intro g hg
    exact install_go_length_le maxT hk tm (max_gid (a :: rs) + 1) (a :: rs) g
      (by simpa [install_groups] using hg)

theorem install_groups_src (maxT : ℕ) (tm : List (ℤ × TagInfo)) (reqs : List GroupReq) :
    ∀ g ∈ install_groups maxT tm reqs,
      ∃ r, r ∈ reqs ∧ g.rate_ms = r.rate_ms ∧ g.tag_ids.Sublist r.tag_ids ∧
        (g.group_id = r.group_id ∨ max_gid reqs < g.group_id) := by
  cases reqs with
  | nil => simp [install_groups, install_go]
  | cons a rs =>
    intro g hg
    exact install_go_src maxT tm (max_gid (a :: rs)) (max_gid (a :: rs) + 1) (a :: rs)
      (by omega) g (by simpa [install_groups] using hg)

theorem install_groups_keeps_ids (maxT : ℕ) (tm : List (ℤ × TagInfo)) (reqs : List GroupReq) :
    ∀ r ∈ reqs, ∃ g ∈ install_groups maxT tm reqs,
      g.group_id = r.group_id ∧ g.rate_ms = r.rate_ms := by
  cases reqs with
  | nil => simp
  | cons a rs =>
    intro r hr
    obtain ⟨g, hg, hs⟩ := install_go_keeps_ids maxT tm (max_gid (a :: rs) + 1) (a :: rs) r hr
    exact ⟨g, by simpa [install_groups] using hg, hs⟩

/-- C5: after a `subscribe_polling` call on a connected worker whose
requested groups partition the tag ids (a positive `max_tags_per_group` is
assumed, as configured by `connect`): every installed group is within the
size limit; the concatenation of the installed tag-id lists equals the
concatenation of the requested ones (so chunks are consecutive slices);
the installed lists are pairwise disjoint with the same union; every
installed group inherits the rate of a requested group whose tag list it is
a sublist of, and carries either that group's id or an id strictly above
the maximum requested id; and every requested group id survives with its
rate. -/
theorem c5_group_partition (s : WorkerState) (tags : List TagSub) (reqs : List GroupReq)
    (hconn : s.connected = true) (hmax : 0 < s.max_tags_per_group)
    (hnodup : ((reqs.map GroupReq.tag_ids).flatten).Nodup) :
    (∀ g ∈ (subscribe_polling s tags reqs).1.poll_groups,
        g.tag_ids.length ≤ s.max_tags_per_group) ∧
    (((subscribe_polling s tags reqs).1.poll_groups.map PollGroup.tag_ids).flatten =
        (reqs.map GroupReq.tag_ids).flatten) ∧
    (((subscribe_polling s tags reqs).1.poll_groups.map PollGroup.tag_ids).flatten).Nodup ∧
    List.Pairwise (fun g1 g2 => (PollGroup.tag_ids g1).Disjoint (PollGroup.tag_ids g2))
      (subscribe_polling s tags reqs).1.poll_groups ∧
    (∀ x : ℤ, (∃ g ∈ (subscribe_polling s tags reqs).1.poll_groups, x ∈ g.tag_ids) ↔
        (∃ r ∈ reqs, x ∈ r.tag_ids)) ∧
    (∀ g ∈ (subscribe_polling s tags reqs).1.poll_groups, ∃ r, r ∈ reqs ∧
        g.rate_ms = r.rate_ms ∧ g.tag_ids.Sublist r.tag_ids ∧
          (g.group_id = r.group_id ∨ max_gid reqs < g.group_id)) ∧
    (∀ r ∈ reqs, ∃ g ∈ (subscribe_polling s tags reqs).1.poll_groups,
        g.group_id = r.group_id ∧ g.rate_ms = r.rate_ms) := by
  have hpg : (subscribe_polling s tags reqs).1.poll_groups =
      install_groups s.max_tags_per_group
        (tags.foldl (fun m t => dinsert m t.tag_id (make_tag_info t)) []) reqs := by
    simp [subscribe_polling, hconn, stop_polling]
  rw [hpg]
  have hflat := install_groups_flatten s.max_tags_per_group
    (tags.foldl (fun m t => dinsert m t.tag_id (make_tag_info t)) []) reqs
  have hnodup2 : (((install_groups s.max_tags_per_group
      (tags.foldl (fun m t => dinsert m t.tag_id (make_tag_info t)) []) reqs).map
        PollGroup.tag_ids).flatten).Nodup := by rw [hflat]; exact hnodup
  refine ⟨install_groups_length_le _ hmax _ _, hflat, hnodup2, ?_, ?_,
    install_groups_src _ _ _, install_groups_keeps_ids _ _ _⟩
  · have hpw := (List.nodup_flatten.mp hnodup2).2
    exact (List.pairwise_map).mp hpw
  · intro x
    constructor
    · rintro ⟨g, hg, hx⟩
      have hmem : x ∈ ((install_groups s.max_tags_per_group
          (tags.foldl (fun m t => dinsert m t.tag_id (make_tag_info t)) []) reqs).map
            PollGroup.tag_ids).flatten := by
        simp only [List.mem_flatten, List.mem_map]
        exact ⟨g.tag_ids, ⟨g, hg, rfl⟩, hx⟩
      rw [hflat] at hmem
      simp only [List.mem_flatten, List.mem_map] at hmem
      obtain ⟨l, ⟨r, hr, rfl⟩, hx2⟩ := hmem
      exact ⟨r, hr, hx2⟩
    · rintro ⟨r, hr, hx⟩
      have hmem : x ∈ ((reqs.map GroupReq.tag_ids)).flatten := by
        simp only [List.mem_flatten, List.mem_map]
        exact ⟨r.tag_ids, ⟨r, hr, rfl⟩, hx⟩
      rw [← hflat] at hmem
      simp only [List.mem_flatten, List.mem_map] at hmem
      obtain ⟨l, ⟨g, hg, rfl⟩, hx2⟩ := hmem
      exact ⟨g, hg, hx2⟩

/-- C5 witness: a connected worker with `max_tags_per_group = 2` and one
requested group of three distinct tags satisfies the hypotheses and the
size bound. -/
theorem c5_witness :
    0 < (2 : ℕ) ∧
    (((([⟨1, 100, [10, 20, 30]⟩] : List GroupReq)).map GroupReq.tag_ids).flatten).Nodup ∧
    (∀ g ∈ (subscribe_polling ⟨true, false, [], [], [], [], [], [], 2, 8⟩ []
        [⟨1, 100, [10, 20, 30]⟩]).1.poll_groups, g.tag_ids.length ≤ 2) :=
  ⟨by decide, by decide,
    (c5_group_partition ⟨true, false, [], [], [], [], [], [], 2, 8⟩ []
      [⟨1, 100, [10, 20, 30]⟩] rfl (by decide) (by decide)).1⟩

/-- The whitespace characters Python's `int(str)` strips (space, tab,
newline, carriage return, vertical tab, form feed; unicode spaces are not
modelled). -/
def is_py_space (c : Char) : Bool :=
  c = ' ' ∨ c = '\t' ∨ c = '\n' ∨ c = '\r' ∨ c.val = 11 ∨ c.val = 12

/-- Strip leading and trailing whitespace, as `int(str)` does. -/
def py_strip (l : List Char) : List Char :=
  ((l.dropWhile is_py_space).reverse.dropWhile is_py_space).reverse

/-- After an initial digit: further digits, with single underscores allowed
only between digits (Python 3 numeric-literal grouping). -/
def digitsTail : List Char → Bool
  | [] => true
  | '_' :: [] => false
  | '_' :: c :: rest => c.isDigit && digitsTail rest
  | c :: rest => c.isDigit && digitsTail rest

/-- A valid unsigned Python integer literal body: nonempty, starts with a
digit, underscores only between digits. -/
def digitsOK : List Char → Bool
  | [] => false
  | c :: rest => c.isDigit && digitsTail rest

/-- Decimal value of a digit string, skipping underscores. -/
def digitsVal (l : List Char) : ℕ :=
  l.foldl (fun acc c => if c = '_' then acc else acc * 10 + (c.toNat - 48)) 0

/-- Python `int(index_str)` (worker line 1218), restricted to ASCII decimal
literals: optional surrounding whitespace, an optional sign, then digits
(with underscore grouping); `Option.none` models the `ValueError` path. -/
def py_parse_int (l : List Char) : Option ℤ :=
  match py_strip l with
  | '+' :: rest => if digitsOK rest then some ((digitsVal rest : ℤ)) else Option.none
  | '-' :: rest => if digitsOK rest then some (-(digitsVal rest : ℤ)) else Option.none
  | s => if digitsOK s then some ((digitsVal s : ℤ)) else Option.none

/-- The array-element classification of `poll_group` (worker lines
1213-1227): a name containing both `[` and `]` is split at the first `[`
and first `]`; if the enclosed slice parses as an integer the tag is an
array element `(base, index)`, otherwise (including a `ValueError` from
`int`) it is read as an individual scalar. -/
def classify_tag (name : List Char) : Option (List Char × ℤ) :=
  if ('[' ∈ name) ∧ (']' ∈ name) then
    let i1 := (name.takeWhile (fun c => c ≠ '[')).length
    let i2 := (name.takeWhile (fun c => c ≠ ']')).length
    let base := name.take i1
    let index_str := (name.drop (i1 + 1)).take (i2 - (i1 + 1))
    match py_parse_int index_str with
    | some i => some (base, i)
    | Option.none => Option.none
  else Option.none

/-- The grouping pass of `poll_group` (worker lines 1203-1227): split the
resolved `(tag_id, tag_name)` pairs into the `individual_tags` dict and the
`array_tags` dict of per-base `{index → tag_id}` maps, in iteration
order. -/
def build_tag_groups (tags : List (ℤ × List Char)) :
    List (List Char × ℤ) × List (List Char × List (ℤ × ℤ)) :=
  tags.foldl
    (fun acc p =>
      match classify_tag p.2 with
      | some bi =>
        let im := (dlookup acc.2 bi.1).getD []
        (acc.1, dinsert acc.2 bi.1 (dinsert im bi.2 p.1))
      | Option.none => (dinsert acc.1 p.2 p.1, acc.2))
    ([], [])

/-- One read request of the Batch Planner, with its mapping back to
subscribed tag ids kept structurally: a scalar tag read, a sparse element
read `BASE[i]`, or a full-array read `BASE{N}` (sizes and indices are kept
as integers rather than re-rendered into the request string). -/
inductive ReadReq : Type where
  | tag (name : List Char) (tag_id : ℤ)
  | elem (base : List Char) (index : ℤ) (tag_id : ℤ)
  | array (base : List Char) (size : ℤ) (index_map : List (ℤ × ℤ))
  deriving DecidableEq

/-- Python `max` over a nonempty list of integers (`max(index_map.keys())`,
worker line 1247); `0` for the empty list, which the worker never asks. -/
def list_max : List ℤ → ℤ
  | [] => 0
  | [x] => x
  | x :: xs => max x (list_max xs)

/-- Array planning for one base (worker lines 1245-1287): `individual` mode
always reads each subscribed element; batch mode (any other mode string)
reads the whole array `BASE{max_index + 1}` iff at least 10 elements or at
least 10% of the extent are subscribed, else sparse elements.  The float
threshold `array_size * 0.1` is modelled as the exact rational `N/10`,
which agrees with the IEEE computation for every `N` here. -/
def plan_for_array (mode : String) (base : List Char) (im : List (ℤ × ℤ)) :
    List ReadReq :=
  let max_index := list_max (im.map Prod.fst)
  let array_size := max_index + 1
  let num_requested := im.length
  if mode = "individual" then
    im.map (fun p => ReadReq.elem base p.1 p.2)
  else if 10 ≤ num_requested ∨ ((array_size : ℚ) * (1 / 10) ≤ (num_requested : ℚ)) then
    [ReadReq.array base array_size im]
  else
    im.map (fun p => ReadReq.elem base p.1 p.2)

/-- The full read plan of one `poll_group` iteration (worker lines
1234-1287): the individual tags in dict order, then each array base's
planned requests. -/
def build_read_plan (mode : String) (tags : List (ℤ × List Char)) : List ReadReq :=
  let groups := build_tag_groups tags
  groups.1.map (fun p => ReadReq.tag p.1 p.2) ++
    (groups.2.map (fun p => plan_for_array mode p.1 p.2)).flatten

theorem takeWhile_split {α : Type} (p : α → Bool) (pre : List α) (c : α) (rest : List α)
    (hpre : ∀ x ∈ pre, p x = true) (hc : p c = false) :
    (pre ++ c :: rest).takeWhile p = pre := by
  induction pre with
  | nil => simp [List.takeWhile_cons, hc]
  | cons x xs ih =>
    have hx : p x = true := hpre x (List.mem_cons_self _ _)
    simp [List.takeWhile_cons, hx,
      ih (fun y hy => hpre y (List.mem_cons_of_mem _ hy))]

theorem first_occurrence_split {α : Type} [DecidableEq α] (a : α) (l : List α)
    (h : a ∈ l) :
    ∃ A B, l = A ++ a :: B ∧ a ∉ A ∧ l.takeWhile (fun c => c ≠ a) = A := by
  induction l with
  | nil => simp at h
  | cons x xs ih =>
    by_cases hx : x = a
    · subst hx
      exact ⟨[], xs, rfl, by simp, by simp [List.takeWhile_cons]⟩
    · have hmem : a ∈ xs := by
        rcases List.mem_cons.mp h with h1 | h1
        · exact absurd h1.symm hx
        · exact h1
      obtain ⟨A, B, hl, hA, hTW⟩ := ih hmem
      refine ⟨x :: A, B, by simp [hl], ?_, ?_⟩
      · intro hmem2
        rcases List.mem_cons.mp hmem2 with h1 | h1
        · exact hx h1.symm
        · exact hA h1
      · show List.takeWhile (fun c => decide (c ≠ a)) (x :: xs) = x :: A
        rw [List.takeWhile_cons, if_pos (by simp [hx]), hTW]

theorem py_parse_int_nil : py_parse_int [] = Option.none := rfl

/-- C4: the Batch Planner's classification and array planning.  (1) A tag
name is classified as array element `(base, i)` iff it decomposes as
`base ++ "[" ++ mid ++ "]" ++ suf` around its first `[` and first `]` with
`mid` parsing as the integer `i`; every other name (no brackets, or a
non-integer bracket slice) is read as a scalar.  (2) For one array base
with `S` subscribed indices and maximum index `M`, with `N = M + 1`:
`individual` mode always emits one sparse element read per subscribed
index, and batch mode emits the single full-array read `BASE{N}` iff
`S ≥ 10` or `S ≥ N/10`, else sparse element reads.  (3) The iteration's
plan is the individual tags followed by each array base's planned
requests. -/
theorem c4_planner (mode : String) :
    (∀ (name base : List Char) (i : ℤ),
      classify_tag name = some (base, i) ↔
        ∃ mid suf, name = base ++ '[' :: (mid ++ ']' :: suf) ∧ '[' ∉ base ∧
          ']' ∉ base ∧ ']' ∉ mid ∧ py_parse_int mid = some i) ∧
    (∀ (base : List Char) (im : List (ℤ × ℤ)),
      (plan_for_array "individual" base im =
        im.map (fun p => ReadReq.elem base p.1 p.2)) ∧
      (mode ≠ "individual" →
        ((10 ≤ im.length ∨
            ((list_max (im.map Prod.fst) + 1 : ℤ) : ℚ) / 10 ≤ (im.length : ℚ)) →
          plan_for_array mode base im =
            [ReadReq.array base (list_max (im.map Prod.fst) + 1) im]) ∧
        (¬(10 ≤ im.length ∨
            ((list_max (im.map Prod.fst) + 1 : ℤ) : ℚ) / 10 ≤ (im.length : ℚ)) →
          plan_for_array mode base im =
            im.map (fun p => ReadReq.elem base p.1 p.2)))) ∧
    (∀ tags : List (ℤ × List Char), build_read_plan mode tags =
      (build_tag_groups tags).1.map (fun p => ReadReq.tag p.1 p.2) ++
        ((build_tag_groups tags).2.map (fun p => plan_for_array mode p.1 p.2)).flatten) := by
  refine ⟨?_, ?_, fun tags => rfl⟩
  · intro name base i
    constructor
    · intro hc
      rw [classify_tag] at hc
      by_cases hmem : ('[' ∈ name) ∧ (']' ∈ name)
      case neg => rw [if_neg hmem] at hc; exact absurd hc (by simp)
      rw [if_pos hmem] at hc
      obtain ⟨A, B, hAB, hAnot, hTW1⟩ := first_occurrence_split '[' name hmem.1
      obtain ⟨A2, B2, hAB2, hA2not, hTW2⟩ := first_occurrence_split ']' name hmem.2
      rw [hTW1, hTW2] at hc
      have htake1 : name.take A.length = A := by rw [hAB]; exact List.take_left ..
      have hdrop1 : name.drop (A.length + 1) = B := by
        rw [hAB, show A ++ '[' :: B = (A ++ ['[']) ++ B by simp]
        exact List.drop_left' (by simp)
      by_cases hlen : A.length + 1 ≤ A2.length
      case neg =>
        have hzero : A2.length - (A.length + 1) = 0 := by omega
        simp only [htake1, hdrop1, hzero, List.take_zero, py_parse_int_nil] at hc
        exact absurd hc (by simp)
      case pos =>
        have hdropA2 : name.drop (A.length + 1) =
            A2.drop (A.length + 1) ++ ']' :: B2 := by
          rw [hAB2, show A2 ++ ']' :: B2 =
              (A2.take (A.length + 1)) ++ (A2.drop (A.length + 1) ++ ']' :: B2) by
            rw [← List.append_assoc, List.take_append_drop]]
          exact List.drop_left' (by simp [List.length_take]; omega)
        have hB : B = A2.drop (A.length + 1) ++ ']' :: B2 := by
          rw [← hdrop1, hdropA2]
        have hmid : (name.drop (A.length + 1)).take (A2.length - (A.length + 1)) =
            A2.drop (A.length + 1) := by
          rw [hdropA2]
          exact List.take_left' (by simp [List.length_drop])
        simp only [htake1, hmid] at hc
        cases hp : py_parse_int (A2.drop (A.length + 1)) with
        | none => rw [hp] at hc; exact absurd hc (by simp)
        | some j =>
          rw [hp] at hc
          simp only [Option.some.injEq, Prod.mk.injEq] at hc
          obtain ⟨hbase, hi⟩ := hc
          subst hbase; subst hi
          refine ⟨A2.drop (A.length + 1), B2, ?_, hAnot, ?_, ?_, hp⟩
          · rw [hAB, hB]
          · intro hin
            have hA2pre : name.take A2.length = A2 := by
              rw [hAB2]; exact List.take_left ..
            have hAA2 : A = A2.take A.length := by
              rw [← hA2pre, List.take_take, min_eq_left (by omega), htake1]
            rw [hAA2] at hin
            exact hA2not ((List.take_sublist _ _).subset hin)
          · intro hin
            exact hA2not ((List.drop_sublist _ _).subset hin)
    · rintro ⟨mid, suf, hname, hlb, hrb, hrm, hp⟩
      rw [classify_tag]
      have hmem : ('[' ∈ name) ∧ (']' ∈ name) := by
        constructor
        · rw [hname]; simp
        · rw [hname]; simp
      rw [if_pos hmem]
      have hTW1 : name.takeWhile (fun c => c ≠ '[') = base := by
        rw [hname]
        exact takeWhile_split _ base '[' _
          (fun x hx => by simp; exact fun he => hlb (he ▸ hx)) (by simp)
      have hTW2 : name.takeWhile (fun c => c ≠ ']') = base ++ '[' :: mid := by
        rw [hname, show base ++ '[' :: (mid ++ ']' :: suf) =
            (base ++ '[' :: mid) ++ ']' :: suf by simp]
        refine takeWhile_split _ (base ++ '[' :: mid) ']' _ ?_ (by simp)
        intro x hx
        simp only [List.mem_append, List.mem_cons] at hx
        rcases hx with hx | hx | hx
        · simp; exact fun he => hrb (he ▸ hx)
        · subst hx; simp
        · simp; exact fun he => hrm (he ▸ hx)
      rw [hTW1, hTW2]
      have htake : name.take base.length = base := by
        rw [hname]; exact List.take_left ..
      have hdrop : name.drop (base.length + 1) = mid ++ ']' :: suf := by
        rw [hname, show base ++ '[' :: (mid ++ ']' :: suf) =
            (base ++ ['[']) ++ (mid ++ ']' :: suf) by simp]
        exact List.drop_left' (by simp)
      have hlen2 : (base ++ '[' :: mid).length - (base.length + 1) = mid.length := by
        simp only [List.length_append, List.length_cons]
        omega
      have hTL : (mid ++ ']' :: suf).take mid.length = mid := List.take_left ..
      simp only [htake, hdrop, hlen2, hTL, hp]
  · intro base im
    constructor
    · rw [plan_for_array]
      simp
    · intro hmode
      have hcond : ((list_max (im.map Prod.fst) + 1 : ℤ) : ℚ) * (1 / 10) =
          ((list_max (im.map Prod.fst) + 1 : ℤ) : ℚ) / 10 := by
        rw [mul_one_div]
      constructor
      · intro hth
        rw [plan_for_array]
        rw [if_neg (by simpa using hmode), if_pos (by rw [hcond]; exact hth)]
      · intro hth
        rw [plan_for_array]
        rw [if_neg (by simpa using hmode), if_neg (by rw [hcond]; exact hth)]

/-- C4 witness: `A[3]` classifies as array element `(A, 3)`, and in batch
mode a base with 2 subscribed indices out of extent 2 (100% density) is
read as one full array while the same 2 indices out of extent 1000 are read
sparsely. -/
theorem c4_witness :
    classify_tag ['A', '[', '3', ']'] = some (['A'], 3) ∧
    plan_for_array "batch" ['A'] [(0, 1), (1, 2)] =
      [ReadReq.array ['A'] 2 [(0, 1), (1, 2)]] ∧
    plan_for_array "batch" ['A'] [(0, 1), (999, 2)] =
      [ReadReq.elem ['A'] 0 1, ReadReq.elem ['A'] 999 2] := by
  refine ⟨((c4_planner "batch").1 _ _ _).mpr ⟨['3'], [], rfl, by decide, by decide,
    by decide, by decide⟩, ?_, ?_⟩
  · exact (((c4_planner "batch").2.1 ['A'] [(0, 1), (1, 2)]).2 (by decide)).1
      (Or.inr (by norm_num [list_max]))
  · exact (((c4_planner "batch").2.1 ['A'] [(0, 1), (999, 2)]).2 (by decide)).2
      (by push_neg; exact ⟨by norm_num, by norm_num [list_max]⟩)

/-- The method names of `handle_request`'s dispatch chain (worker lines
77-104). -/
def known_methods : List String :=
  ["connect", "disconnect", "read_tag", "write_tag", "read_tags", "list_tags",
   "subscribe_polling", "stop_polling", "discover", "list_identity", "browse_tags",
   "resolve_types", "get_connection_status", "get_rack_configuration"]

/-- A decoded JSON-RPC request as `handle_request` reads it:
`request.get('method')` (`Option.none` = absent or non-string),
`request.get('params', {})`, and `request.get('id')`.  Params and id values
stay abstract. -/
structure RpcRequest (P I : Type) : Type where
  method : Option String
  params : P
  id : Option I

/-- A JSON-RPC response envelope: a `result` or an `error {code, message}`,
each carrying the id. -/
inductive RpcResponse (R I : Type) : Type where
  | result (r : R) (id : Option I)
  | error (code : ℤ) (message : String) (id : Option I)

/-- Embedding of `PyComm3Worker.handle_request` (worker lines 70-130).
`exec m p` abstracts running the method handler `self.m(p)`:
`Except.error e` is a raised exception with message `str(e) = e`.  An
unknown (or absent) method answers `-32601`; a handler exception answers
`-32000` with the exception message; a normal return answers a result —
always under the request's id. -/
def handle_request {P R I : Type} (exec : String → P → Except String R)
    (req : RpcRequest P I) : RpcResponse R I :=
  match req.method with
  | Option.none => RpcResponse.error (-32601) "Method not found: None" req.id
  | some m =>
    if m ∈ known_methods then
      match exec m req.params with
      | Except.ok r => RpcResponse.result r req.id
      | Except.error e => RpcResponse.error (-32000) e req.id
    else RpcResponse.error (-32601) ("Method not found: " ++ m) req.id

/-- Embedding of the per-line handling in `read_stdin_async` (worker lines
1455-1486): `parse` abstracts `json.loads`, with `Option.none` a
`JSONDecodeError`, answered by `-32700` with id `null`. -/
def process_line {P R I : Type} (parse : String → Option (RpcRequest P I))
    (exec : String → P → Except String R) (line : String) : RpcResponse R I :=
  match parse line with
  | Option.none => RpcResponse.error (-32700) "Parse error: Invalid JSON" Option.none
  | some req => handle_request exec req

/-- C8: the dispatcher's error-code contract: unknown methods answer
`-32601`; unparsable lines answer `-32700` with id null; a handler
exception answers `-32000` carrying the exception message; a normal handler
return answers a result under the request's id. -/
theorem c8_dispatcher_codes {P R I : Type} (exec : String → P → Except String R)
    (parse : String → Option (RpcRequest P I)) :
    (∀ (req : RpcRequest P I) (m : String), req.method = some m → m ∉ known_methods →
      handle_request exec req =
        RpcResponse.error (-32601) ("Method not found: " ++ m) req.id) ∧
    (∀ req : RpcRequest P I, req.method = Option.none →
      handle_request exec req =
        RpcResponse.error (-32601) "Method not found: None" req.id) ∧
    (∀ line : String, parse line = Option.none →
      process_line parse exec line =
        RpcResponse.error (-32700) "Parse error: Invalid JSON" Option.none) ∧
    (∀ (req : RpcRequest P I) (m e : String), req.method = some m →
      m ∈ known_methods → exec m req.params = Except.error e →
      handle_request exec req = RpcResponse.error (-32000) e req.id) ∧
    (∀ (req : RpcRequest P I) (m : String) (r : R), req.method = some m →
      m ∈ known_methods → exec m req.params = Except.ok r →
      handle_request exec req = RpcResponse.result r req.id) := by
  refine ⟨fun req m hm hnk => ?_, fun req hm => ?_, fun line hl => ?_,
    fun req m e hm hk he => ?_, fun req m r hm hk hr => ?_⟩
  · simp [handle_request, hm, hnk]
  · simp [handle_request, hm]
  · simp [process_line, hl]
  · simp [handle_request, hm, hk, he]
  · simp [handle_request, hm, hk, hr]

/-- C8 witness: concrete requests through a two-outcome handler table. -/
theorem c8_witness :
    handle_request (P := Unit) (I := Unit) (R := ℤ)
        (fun m _ => if m = "connect" then Except.ok 7 else Except.error "boom")
        ⟨some "bogus", (), some ()⟩ =
      RpcResponse.error (-32601) ("Method not found: " ++ "bogus") (some ()) ∧
    handle_request (P := Unit) (I := Unit) (R := ℤ)
        (fun m _ => if m = "connect" then Except.ok 7 else Except.error "boom")
        ⟨some "connect", (), some ()⟩ = RpcResponse.result 7 (some ()) ∧
    handle_request (P := Unit) (I := Unit) (R := ℤ)
        (fun m _ => if m = "connect" then Except.ok 7 else Except.error "boom")
        ⟨some "disconnect", (), some ()⟩ =
      RpcResponse.error (-32000) "boom" (some ()) ∧
    process_line (P := Unit) (I := Unit) (R := ℤ) (fun _ => Option.none)
        (fun m _ => if m = "connect" then Except.ok 7 else Except.error "boom") "x" =
      RpcResponse.error (-32700) "Parse error: Invalid JSON" Option.none :=
  ⟨(c8_dispatcher_codes _ (fun _ => Option.none)).1 _ "bogus" rfl (by decide),
   (c8_dispatcher_codes _ (fun _ => Option.none)).2.2.2.2 _ "connect" 7 rfl (by decide) rfl,
   (c8_dispatcher_codes _ (fun _ => Option.none)).2.2.2.1 _ "disconnect" "boom" rfl
     (by decide) rfl,
   (c8_dispatcher_codes _ (fun _ => Option.none)).2.2.1 "x" rfl⟩

/-- `int.from_bytes(value, 'little')`: first byte least significant. -/
def le_bytes : List ℕ → ℕ
  | [] => 0
  | b :: rest => b + 256 * le_bytes rest

/-- Python `int(x)` on a float, truncating toward zero; used for
`int((current / max) * 100)` with the division idealized as exact rational
arithmetic (`a * 100 / b` truncated). -/
def trunc_div (a b : ℤ) : ℤ := if 0 ≤ a then a / b else -((-a) / b)

/-- `usage_percent = int((current / max) * 100) if max > 0 else 0`
(worker line 688). -/
def usage_percent_of (current maxc : ℤ) : ℤ :=
  if 0 < maxc then trunc_div (current * 100) maxc else 0

/-- The fields of the `get_connection_status` result record the claims
touch (worker lines 701-714). -/
structure ConnStatus : Type where
  active_connections : Option ℤ
  max_connections : Option ℤ
  available_connections : Option ℤ
  usage_percent : Option ℤ
  status : String
  source : String
  query_supported : Bool
  other_connections : Option ℤ
  deriving DecidableEq

/-- The result record when a device query succeeded (worker lines 684-714,
`source = 'device_query'` branch). -/
def device_query_record (maxc cur df : ℤ) : ConnStatus :=
  { active_connections := some cur
    max_connections := some maxc
    available_connections := some (max 0 (maxc - cur))
    usage_percent := some (usage_percent_of cur maxc)
    status :=
      if 90 ≤ usage_percent_of cur maxc then "critical"
      else if 80 ≤ usage_percent_of cur maxc then "warning"
      else "healthy"
    source := "device_query"
    query_supported := true
    other_connections := some (max 0 (cur - df)) }

/-- The result record when neither query method produced both counts
(worker lines 691-718). -/
def unavailable_record : ConnStatus :=
  { active_connections := Option.none
    max_connections := Option.none
    available_connections := Option.none
    usage_percent := Option.none
    status := "unknown"
    source := "unavailable"
    query_supported := false
    other_connections := Option.none }

/-- Embedding of `PyComm3Worker.get_connection_status` (worker lines
568-724).  Each CIP query outcome is `some bytes` when `generic_message`
returned a truthy, error-free response (pycomm3's `Tag.__bool__` already
requires a non-null value and no error) and `Option.none` when it raised or
returned an error.  Method 1 (Unconnected Message Manager, class 0x02B)
additionally requires a nonempty byte string (`resp.value` truthiness),
decodes all of it little-endian as `free_buffers` and reports
`current = 40 - free`, `max = 40`.  Otherwise method 2 (Connection Manager,
class 0x06) decodes attributes 5 and 6 as little-endian 16-bit values
(first two bytes, requiring at least 2); if either count is still missing
the record reports `query_supported = false` with no counts. -/
def get_connection_status (umm attr5 attr6 : Option (List ℕ)) (df : ℤ) : ConnStatus :=
  let m1 : Option (ℤ × ℤ) :=
    match umm with
    | some bs => if bs ≠ [] then some ((40 : ℤ), (40 : ℤ) - (le_bytes bs : ℤ))
                 else Option.none
    | Option.none => Option.none
  let mc : Option ℤ × Option ℤ :=
    match m1 with
    | some p => (some p.1, some p.2)
    | Option.none =>
      (match attr5 with
       | some bs => if 2 ≤ bs.length then some ((le_bytes (bs.take 2) : ℤ))
                    else Option.none
       | Option.none => Option.none,
       match attr6 with
       | some bs => if 2 ≤ bs.length then some ((le_bytes (bs.take 2) : ℤ))
                    else Option.none
       | Option.none => Option.none)
  match mc.1, mc.2 with
  | some maxc, some cur => device_query_record maxc cur df
  | _, _ => unavailable_record

/-- C9: the Unconnected Message Manager path reports `max = 40` and
`current = 40 - free` with `free` decoded little-endian; when it fails the
Connection Manager attributes 5 and 6 are decoded as little-endian 16-bit
values; when no method yields both counts the record has
`query_supported = false` and no counts; and whenever counts are reported,
`usage_percent` is the truncated `current * 100 / max` and the status is
`critical` iff it is at least 90, `warning` iff it is in `[80, 90)`, and
`healthy` iff it is below 80. -/
theorem c9_connection_status (umm attr5 attr6 : Option (List ℕ)) (df : ℤ) :
    (∀ bs, umm = some bs → bs ≠ [] →
      get_connection_status umm attr5 attr6 df =
        device_query_record 40 (40 - (le_bytes bs : ℤ)) df) ∧
    ((umm = Option.none ∨ umm = some []) →
      ∀ b5 b6, attr5 = some b5 → 2 ≤ b5.length → attr6 = some b6 → 2 ≤ b6.length →
        get_connection_status umm attr5 attr6 df =
          device_query_record (le_bytes (b5.take 2) : ℤ) (le_bytes (b6.take 2) : ℤ) df) ∧
    ((umm = Option.none ∨ umm = some []) →
      ((attr5 = Option.none ∨ ∃ b5, attr5 = some b5 ∧ b5.length < 2) ∨
        (attr6 = Option.none ∨ ∃ b6, attr6 = some b6 ∧ b6.length < 2)) →
      get_connection_status umm attr5 attr6 df = unavailable_record ∧
        unavailable_record.query_supported = false ∧
        unavailable_record.active_connections = Option.none ∧
        unavailable_record.max_connections = Option.none ∧
        unavailable_record.usage_percent = Option.none) ∧
    (∀ maxc cur : ℤ, 0 < maxc →
      (device_query_record maxc cur df).usage_percent =
          some (trunc_div (cur * 100) maxc) ∧
        ((device_query_record maxc cur df).status = "critical" ↔
          90 ≤ trunc_div (cur * 100) maxc) ∧
        ((device_query_record maxc cur df).status = "warning" ↔
          (80 ≤ trunc_div (cur * 100) maxc ∧ trunc_div (cur * 100) maxc < 90)) ∧
        ((device_query_record maxc cur df).status = "healthy" ↔
          trunc_div (cur * 100) maxc < 80)) := by
  refine ⟨fun bs hbs hne => ?_, fun hfail b5 b6 h5 hl5 h6 hl6 => ?_,
    fun hfail hmiss => ⟨?_, rfl, rfl, rfl, rfl⟩, fun maxc cur hmax => ?_⟩
  · simp [get_connection_status, hbs, hne]
  · rcases hfail with hf | hf <;>
      simp [get_connection_status, hf, h5, h6, hl5, hl6]
  · rcases hfail with hf | hf <;>
      rcases hmiss with (h5 | ⟨b5, h5, hl5⟩) | (h6 | ⟨b6, h6, hl6⟩)
    · cases attr6 with
      | none => simp [get_connection_status, hf, h5]
      | some b6 => simp [get_connection_status, hf, h5]
    · cases attr6 with
      | none => simp [get_connection_status, hf, h5, Nat.not_le.mpr hl5]
      | some b6 => simp [get_connection_status, hf, h5, Nat.not_le.mpr hl5]
    · cases attr5 with
      | none => simp [get_connection_status, hf, h6]
      | some b5 => simp [get_connection_status, hf, h6]
    · cases attr5 with
      | none => simp [get_connection_status, hf, h6, Nat.not_le.mpr hl6]
      | some b5 => simp [get_connection_status, hf, h6, Nat.not_le.mpr hl6]
    · cases attr6 with
      | none => simp [get_connection_status, hf, h5]
      | some b6 => simp [get_connection_status, hf, h5]
    · cases attr6 with
      | none => simp [get_connection_status, hf, h5, Nat.not_le.mpr hl5]
      | some b6 => simp [get_connection_status, hf, h5, Nat.not_le.mpr hl5]
    · cases attr5 with
      | none => simp [get_connection_status, hf, h6]
      | some b5 => simp [get_connection_status, hf, h6]
    · cases attr5 with
      | none => simp [get_connection_status, hf, h6, Nat.not_le.mpr hl6]
      | some b5 => simp [get_connection_status, hf, h6, Nat.not_le.mpr hl6]
  · have hu : (device_query_record maxc cur df).usage_percent =
        some (trunc_div (cur * 100) maxc) := by
      simp [device_query_record, usage_percent_of, hmax]
    have hu2 : usage_percent_of cur maxc = trunc_div (cur * 100) maxc := by
      simp [usage_percent_of, hmax]
    have hstat : (device_query_record maxc cur df).status =
        (if 90 ≤ trunc_div (cur * 100) maxc then "critical"
         else if 80 ≤ trunc_div (cur * 100) maxc then "warning"
         else "healthy") := by
      simp only [device_query_record, hu2]
    refine ⟨hu, ?_, ?_, ?_⟩ <;> rw [hstat]
    · by_cases h90 : 90 ≤ trunc_div (cur * 100) maxc
      · simp [h90]
      · by_cases h80 : 80 ≤ trunc_div (cur * 100) maxc <;> simp [h90, h80]
    · by_cases h90 : 90 ≤ trunc_div (cur * 100) maxc
      · have hn : ¬trunc_div (cur * 100) maxc < 90 := by omega
        simp [h90, hn]
      · by_cases h80 : 80 ≤ trunc_div (cur * 100) maxc <;> simp [h90, h80] <;> try omega
    · by_cases h90 : 90 ≤ trunc_div (cur * 100) maxc
      · have hn : ¬trunc_div (cur * 100) maxc < 80 := by omega
        simp [h90, hn]
      · by_cases h80 : 80 ≤ trunc_div (cur * 100) maxc <;> simp [h90, h80] <;> try omega

/-- C9 witness: a successful buffer query with 30 free buffers, and the
usage formula evaluated at `current = 10`, `max = 40`. -/
theorem c9_witness :
    get_connection_status (some [30]) Option.none Option.none 1 =
      device_query_record 40 (40 - (le_bytes [30] : ℤ)) 1 ∧
    (device_query_record 40 10 1).usage_percent = some (trunc_div (10 * 100) 40) :=
  ⟨(c9_connection_status (some [30]) Option.none Option.none 1).1 [30] rfl (by decide),
   ((c9_connection_status (some [30]) Option.none Option.none 1).2.2.2 40 10
     (by decide)).1⟩
